import Mathlib

/-!
Verification of the box-geometry, anchor-matching, box-codec and detection
evaluation core of the repository (`paz/core/backend/boxes.py` and
`paz/evaluation/detection.py`).

Arrays are embedded as Lean lists of exact rationals (reals for the codec,
whose code uses `log`/`exp`).  Rows of an `(n, 4)` / `(n, 5)` array become
structures whose fields mirror the columns.  Floating-point division is exact
rational division except where a claim is about NaN production: there the
division is embedded as an `Option`-valued operation (`fdiv`), `none`
standing for the NaN/Inf a zero denominator produces.

The array library imported as `pz` (`import tensor as pz` in
`paz/core/backend/boxes.py`) is not part of the sources.  Its operations
(`maximum`, `minimum`, `max`, `argmax`, `flip`, fancy indexing) are embedded
with their standard array semantics; where the sources exercise them outside
that standard domain (reductions over an empty axis, gathers from an empty
array) the behaviour is modelled from the spec, as noted on the definitions.
-/

namespace PazCore

/-! ## List primitives modelling the array operations -/

/-- Floating-point style division: a zero denominator yields NaN (for 0/0)
or Inf, both modelled as `none`; otherwise exact division. -/
def fdiv (a b : ℚ) : Option ℚ := if b = 0 then none else some (a / b)

/-- Maximum of a list of rationals, `pz.max` over one axis.
Modelled from the spec: the `tensor` backend is not under `src/`; on an
empty axis the reduction is given the junk value `0`, consistent with the
spec guarantee that empty ground truth produces an all-background match
(spec 4.2, step 6 never keeps a foreground class in that case). -/
def listMax : List ℚ → ℚ
  | [] => 0
  | [x] => x
  | x :: y :: t => max x (listMax (y :: t))

/-- Index of the first occurrence of the maximum, `pz.argmax` over one axis.
Modelled from the spec: the `tensor` backend is not under `src/`; `argmax`
returns the first index attaining the maximum (spec 4.4 calls it "plain
argmax"; spec 4.1 describes `reversed_argmax` as returning the last tied
index exactly because plain argmax returns the first).  On an empty axis it
is given the junk value `0`. -/
def argmax : List ℚ → ℕ
  | [] => 0
  | [_] => 0
  | x :: y :: t => if x < listMax (y :: t) then argmax (y :: t) + 1 else 0

/-- `reversed_argmax(array, axis)` from `boxes.py`:
`array.shape[axis] - pz.argmax(pz.flip(array, axis), axis) - 1`.
`pz.flip` along one axis is list reversal. -/
def reversed_argmax (l : List ℚ) : ℕ := l.length - argmax l.reverse - 1

/-! ## Geometry: `compute_iou`, `compute_ious` (`boxes.py`) -/

/-- A point-form box row: columns `[x_min, y_min, x_max, y_max]`. -/
structure Box4 where
  x0 : ℚ
  y0 : ℚ
  x1 : ℚ
  y1 : ℚ
deriving DecidableEq, Repr

/-- A ground-truth row: columns `[x_min, y_min, x_max, y_max, class]`. -/
structure BoxG where
  x0 : ℚ
  y0 : ℚ
  x1 : ℚ
  y1 : ℚ
  cls : ℚ
deriving DecidableEq, Repr

/-- The four coordinate columns of a ground-truth row (`box[:4]`). -/
def BoxG.coords (b : BoxG) : Box4 := ⟨b.x0, b.y0, b.x1, b.y1⟩

/-- Intersection area of `compute_iou`: the product of the clipped overlap
extents (`inner_w * inner_h` in `boxes.py`). -/
def inter_area (A B : Box4) : ℚ :=
  max (min A.x1 B.x1 - max A.x0 B.x0) 0 * max (min A.y1 B.y1 - max A.y0 B.y0) 0

/-- Signed area `(x_max - x_min) * (y_max - y_min)` of one box. -/
def box_area (A : Box4) : ℚ := (A.x1 - A.x0) * (A.y1 - A.y0)

/-- Union area of `compute_iou`: `box_area_A + box_area_B - intersection`. -/
def union_area (A B : Box4) : ℚ := box_area A + box_area B - inter_area A B

/-- `compute_iou(box, boxes)` from `boxes.py`: elementwise
`intersection_area / union_area` over the rows of `boxes`.  The division is
performed unguarded, exactly as in the source (line 34); `fdiv` records the
NaN a zero union produces as `none`. -/
def compute_iou (box : Box4) (boxes : List Box4) : List (Option ℚ) :=
  boxes.map (fun b => fdiv (inter_area box b) (union_area box b))

/-- Total-rational variant of the `compute_iou` elementwise formula, used to
state facts about code paths on which the union is nonzero.  It agrees with
`compute_iou` whenever the union is nonzero (`compute_iou_agrees`); at a zero
union it takes Lean's `x / 0 = 0` convention where the float code yields NaN. -/
def iou_val (A B : Box4) : ℚ := inter_area A B / union_area A B

/-- `compute_ious(boxes_A, boxes_B)` from `boxes.py`: the dense IoU matrix,
row `i` being `compute_iou(boxes_A[i], boxes_B)`, in the total-rational
reading. -/
def compute_ious_val (As Bs : List Box4) : List (List ℚ) :=
  As.map (fun a => Bs.map (fun b => iou_val a b))

theorem compute_iou_agrees (A B : Box4) (h : union_area A B ≠ 0) :
    fdiv (inter_area A B) (union_area A B) = some (iou_val A B) := by
  simp [fdiv, iou_val, h]

/-- Claim C1: `compute_iou` on a pair of coincident zero-area boxes.  The
source divides `0 / 0` with no guard on the denominator, so the result is
NaN (`none`), not the `0` the spec requires: the division is not guarded. -/
theorem compute_iou_zero_union_nan :
    compute_iou ⟨0, 0, 0, 0⟩ [⟨0, 0, 0, 0⟩] = [none] := by
  simp [compute_iou, fdiv, inter_area, union_area, box_area]

/-! ## Properties of `listMax`, `argmax` and `reversed_argmax` -/

theorem listMax_mem : ∀ (l : List ℚ), l ≠ [] → listMax l ∈ l
  | [x], _ => by simp [listMax]
  | x :: y :: t, _ => by
    rcases le_total x (listMax (y :: t)) with h | h
    · rw [listMax, max_eq_right h]
      exact List.mem_cons_of_mem x (listMax_mem (y :: t) (by simp))
    · rw [listMax, max_eq_left h]
      exact List.mem_cons_self x (y :: t)

theorem le_listMax : ∀ (l : List ℚ) (a : ℚ), a ∈ l → a ≤ listMax l
  | [x], a, h => by
    rw [List.mem_singleton] at h
    simp [listMax, h]
  | x :: y :: t, a, h => by
    rcases List.mem_cons.mp h with rfl | h2
    · rw [listMax]
      exact le_max_left _ _
    · rw [listMax]
      exact le_trans (le_listMax (y :: t) a h2) (le_max_right _ _)

theorem argmax_lt_length : ∀ (l : List ℚ), l ≠ [] → argmax l < l.length
  | [_], _ => by simp [argmax]
  | x :: y :: t, _ => by
    by_cases h : x < listMax (y :: t)
    · rw [argmax, if_pos h]
      have := argmax_lt_length (y :: t) (by simp)
      simp only [List.length_cons] at this ⊢
      omega
    · rw [argmax, if_neg h]
      simp

theorem argmax_getD : ∀ (l : List ℚ), l ≠ [] → l.getD (argmax l) 0 = listMax l
  | [x], _ => by simp [argmax, listMax]
  | x :: y :: t, _ => by
    by_cases h : x < listMax (y :: t)
    · rw [argmax, if_pos h, listMax, max_eq_right (le_of_lt h), List.getD_cons_succ]
      exact argmax_getD (y :: t) (by simp)
    · rw [argmax, if_neg h, listMax, max_eq_left (not_lt.mp h), List.getD_cons_zero]

theorem argmax_first : ∀ (l : List ℚ) (j : ℕ), j < argmax l → l.getD j 0 < listMax l
  | [_], j, h => by simp [argmax] at h
  | x :: y :: t, j, h => by
    by_cases hx : x < listMax (y :: t)
    · rw [argmax, if_pos hx] at h
      rw [listMax, max_eq_right (le_of_lt hx)]
      cases j with
      | zero => simpa using hx
      | succ j =>
        rw [List.getD_cons_succ]
        exact argmax_first (y :: t) j (by omega)
    · rw [argmax, if_neg hx] at h
      omega

theorem getD_reverse (l : List ℚ) (i : ℕ) (h : i < l.length) :
    l.reverse.getD i 0 = l.getD (l.length - 1 - i) 0 := by
  have h' : i < l.reverse.length := by simpa using h
  rw [List.getD_eq_getElem _ _ h', List.getD_eq_getElem _ _ (show l.length - 1 - i < l.length by omega)]
  exact List.getElem_reverse h'

theorem listMax_reverse (l : List ℚ) : listMax l.reverse = listMax l := by
  cases l with
  | nil => rfl
  | cons x t =>
    apply le_antisymm
    · exact le_listMax _ _ (List.mem_reverse.mp (listMax_mem ((x :: t).reverse) (by simp)))
    · exact le_listMax _ _ (List.mem_reverse.mpr (listMax_mem (x :: t) (by simp)))

/-- Bound needing no nonemptiness: the index returned by `reversed_argmax`
is below the list length as soon as the list is nonempty in length. -/
theorem reversed_argmax_lt (l : List ℚ) (h : 0 < l.length) :
    reversed_argmax l < l.length := by
  unfold reversed_argmax
  omega

/-- Claim C8: `reversed_argmax` returns the highest index attaining the
maximum value: the returned index is in range and attains the maximum, every
index attaining the maximum is at most the returned one (so an array of all
equal values yields the last index), and when the maximum is unique the
result coincides with ordinary (first-occurrence) `argmax`. -/
theorem reversed_argmax_correct (l : List ℚ) (h : l ≠ []) :
    reversed_argmax l < l.length ∧
    l.getD (reversed_argmax l) 0 = listMax l ∧
    (∀ j, j < l.length → l.getD j 0 = listMax l → j ≤ reversed_argmax l) ∧
    ((∀ i j, i < l.length → j < l.length → l.getD i 0 = listMax l →
        l.getD j 0 = listMax l → i = j) → reversed_argmax l = argmax l) := by
  have hn : 0 < l.length := List.length_pos.mpr h
  have hrev : l.reverse ≠ [] := by simpa [List.reverse_eq_nil_iff] using h
  have ha : argmax l.reverse < l.length := by
    simpa using argmax_lt_length l.reverse hrev
  have hr_eq : reversed_argmax l = l.length - 1 - argmax l.reverse := by
    unfold reversed_argmax
    omega
  have hr_lt : reversed_argmax l < l.length := reversed_argmax_lt l hn
  have hval : l.getD (reversed_argmax l) 0 = listMax l := by
    have h1 := argmax_getD l.reverse hrev
    rw [getD_reverse l _ ha, listMax_reverse] at h1
    rw [hr_eq]
    exact h1
  refine ⟨hr_lt, hval, ?_, ?_⟩
  · intro j hj hjv
    by_contra hcon
    push_neg at hcon
    have hi' : l.length - 1 - j < argmax l.reverse := by omega
    have hlt := argmax_first l.reverse _ hi'
    rw [getD_reverse l _ (show l.length - 1 - j < l.length by omega), listMax_reverse] at hlt
    have hjj : l.length - 1 - (l.length - 1 - j) = j := by omega
    rw [hjj] at hlt
    exact absurd hjv (ne_of_lt hlt)
  · intro huniq
    exact huniq _ _ hr_lt (argmax_lt_length l h) hval (argmax_getD l h)

/-- Witness for C8 at the concrete array `[1, 3, 3, 2]` (tied maximum). -/
theorem reversed_argmax_correct_witness :
    (([1, 3, 3, 2] : List ℚ) ≠ []) ∧
    reversed_argmax ([1, 3, 3, 2] : List ℚ) < ([1, 3, 3, 2] : List ℚ).length ∧
    ([1, 3, 3, 2] : List ℚ).getD (reversed_argmax ([1, 3, 3, 2] : List ℚ)) 0
      = listMax ([1, 3, 3, 2] : List ℚ) :=
  ⟨by simp, (reversed_argmax_correct _ (by simp)).1,
    (reversed_argmax_correct _ (by simp)).2.1⟩

/-! ## Anchor matcher: `match` (`boxes.py`)

The source function is named `match`; that is a Lean keyword, so the
embedding calls it `matchBoxes`.  Its intermediate arrays are exposed as
named definitions so theorems can speak about the stages. -/

/-- A prior (anchor) row in center form: `[center_x, center_y, w, h]`. -/
structure Prior where
  cx : ℚ
  cy : ℚ
  w : ℚ
  h : ℚ
deriving DecidableEq, Repr

/-- `to_point_form` from `boxes.py`, on one row:
`(cx - w/2, cy - h/2, cx + w/2, cy + h/2)`. -/
def to_point_form (p : Prior) : Box4 :=
  ⟨p.cx - p.w / 2, p.cy - p.h / 2, p.cx + p.w / 2, p.cy + p.h / 2⟩

/-- The all-zero row.  Used as the `getD` default; it only materialises when
the code gathers from an empty ground-truth array (see `matchesPre`). -/
def defaultBox : BoxG := ⟨0, 0, 0, 0, 0⟩

/-- `ious = compute_ious(boxes, to_point_form(prior_boxes))`: rows indexed
by ground-truth boxes, columns by priors. -/
def matchIous (boxes : List BoxG) (priors : List Prior) : List (List ℚ) :=
  compute_ious_val (boxes.map BoxG.coords) (priors.map to_point_form)

/-- Column `j` of the IoU matrix (axis-0 view of `ious`). -/
def iouCol (m : List (List ℚ)) (j : ℕ) : List ℚ := m.map (fun r => r.getD j 0)

/-- `best_box_iou_per_prior_box = pz.max(ious, axis=0)`. -/
def bestIouPerPrior (boxes : List BoxG) (priors : List Prior) : List ℚ :=
  (List.range priors.length).map (fun j => listMax (iouCol (matchIous boxes priors) j))

/-- `best_box_arg_per_prior_box = reversed_argmax(ious, 0)`. -/
def bestBoxArgPerPrior (boxes : List BoxG) (priors : List Prior) : List ℕ :=
  (List.range priors.length).map (fun j => reversed_argmax (iouCol (matchIous boxes priors) j))

/-- `best_prior_box_arg_per_box = reversed_argmax(ious, 1)`. -/
def bestPriorArgPerBox (boxes : List BoxG) (priors : List Prior) : List ℕ :=
  (matchIous boxes priors).map reversed_argmax

/-- `best_box_iou_per_prior_box[best_prior_box_arg_per_box] = 2`: fancy-index
assignment writing the sentinel `2` at every listed prior index. -/
def forceIous (iou : List ℚ) : List ℕ → List ℚ
  | [] => iou
  | p :: rest => forceIous (iou.set p 2) rest

/-- The forced-match loop of `match`:
`for box_arg in range(len(bp)): best_box_arg_per_prior_box[bp[box_arg]] = box_arg`,
iterating ground-truth boxes in input order (`g0` is the next index). -/
def forceArgs (args : List ℕ) (bp : List ℕ) (g0 : ℕ) : List ℕ :=
  match bp with
  | [] => args
  | p :: rest => forceArgs (args.set p g0) rest (g0 + 1)

/-- `best_box_arg_per_prior_box` after the forced-match loop. -/
def matchArgs (boxes : List BoxG) (priors : List Prior) : List ℕ :=
  forceArgs (bestBoxArgPerPrior boxes priors) (bestPriorArgPerBox boxes priors) 0

/-- `best_box_iou_per_prior_box` after the sentinel assignment. -/
def matchIousForced (boxes : List BoxG) (priors : List Prior) : List ℚ :=
  forceIous (bestIouPerPrior boxes priors) (bestPriorArgPerBox boxes priors)

/-- `matches = boxes[best_box_arg_per_prior_box]` (gather of rows).
Modelled from the spec: the `tensor` gather on an empty ground-truth array
is not under `src/`; per the spec (4.2, "malformed empty ground-truth input
yields an all-background match set") it is modelled as producing the
all-zero row, whose class is background. -/
def matchesPre (boxes : List BoxG) (priors : List Prior) : List BoxG :=
  (matchArgs boxes priors).map (fun i => boxes.getD i defaultBox)

/-- `match(boxes, prior_boxes, iou_threshold)` from `boxes.py` (`match` is a
Lean keyword).  Final step: `matches[best_box_iou_per_prior_box < iou_threshold, 4] = 0`
overwrites the class column with background on the below-threshold rows. -/
def matchBoxes (boxes : List BoxG) (priors : List Prior) (iou_threshold : ℚ) : List BoxG :=
  List.zipWith (fun iou row => if iou < iou_threshold then { row with cls := 0 } else row)
    (matchIousForced boxes priors) (matchesPre boxes priors)

/-! ### Length and access lemmas for the matcher stages -/

theorem forceIous_length (bp : List ℕ) : ∀ (iou : List ℚ), (forceIous iou bp).length = iou.length := by
  induction bp with
  | nil => intro iou; rfl
  | cons p rest ih =>
    intro iou
    rw [forceIous, ih (iou.set p 2), List.length_set]

theorem forceArgs_length (bp : List ℕ) : ∀ (args : List ℕ) (g0 : ℕ),
    (forceArgs args bp g0).length = args.length := by
  induction bp with
  | nil => intro args g0; rfl
  | cons p rest ih =>
    intro args g0
    rw [forceArgs, ih (args.set p g0) (g0 + 1), List.length_set]

theorem forceIous_getD_notmem (bp : List ℕ) : ∀ (iou : List ℚ) (j : ℕ), j ∉ bp →
    (forceIous iou bp).getD j 0 = iou.getD j 0 := by
  induction bp with
  | nil => intro iou j _; rfl
  | cons p rest ih =>
    intro iou j hj
    rw [forceIous, ih (iou.set p 2) j (fun hm => hj (List.mem_cons_of_mem p hm))]
    have hne : p ≠ j := fun he => hj (he ▸ List.mem_cons_self p rest)
    by_cases hjl : j < iou.length
    · rw [List.getD_eq_getElem _ _ (by simpa using hjl), List.getD_eq_getElem _ _ hjl]
      exact List.getElem_set_ne hne _
    · rw [List.getD_eq_default _ _ (by simpa using not_lt.mp hjl),
        List.getD_eq_default _ _ (not_lt.mp hjl)]

theorem forceIous_getD_mem (bp : List ℕ) : ∀ (iou : List ℚ) (j : ℕ), j ∈ bp → j < iou.length →
    (forceIous iou bp).getD j 0 = 2 := by
  induction bp with
  | nil => intro iou j hm _; exact absurd hm (List.not_mem_nil j)
  | cons p rest ih =>
    intro iou j hm hj
    rw [forceIous]
    rcases List.mem_cons.mp hm with rfl | hr
    · by_cases hmem : j ∈ rest
      · exact ih (iou.set j 2) j hmem (by simpa using hj)
      · rw [forceIous_getD_notmem rest _ j hmem,
          List.getD_eq_getElem _ _ (show j < (iou.set j 2).length by simpa using hj)]
        exact List.getElem_set_self _
    · exact ih (iou.set p 2) j hr (by simpa using hj)

theorem forceArgs_getD_notmem (bp : List ℕ) : ∀ (args : List ℕ) (g0 j : ℕ), j ∉ bp →
    (forceArgs args bp g0).getD j 0 = args.getD j 0 := by
  induction bp with
  | nil => intro args g0 j _; rfl
  | cons p rest ih =>
    intro args g0 j hj
    rw [forceArgs, ih (args.set p g0) (g0 + 1) j (fun hm => hj (List.mem_cons_of_mem p hm))]
    have hne : p ≠ j := fun he => hj (he ▸ List.mem_cons_self p rest)
    by_cases hjl : j < args.length
    · rw [List.getD_eq_getElem _ _ (by simpa using hjl), List.getD_eq_getElem _ _ hjl]
      exact List.getElem_set_ne hne _
    · rw [List.getD_eq_default _ _ (by simpa using not_lt.mp hjl),
        List.getD_eq_default _ _ (not_lt.mp hjl)]

/-- Last-writer-wins for the forced-match loop: if position `k` of the
best-prior list holds prior index `j` and no later position holds `j` again,
the final argument array maps `j` to ground-truth index `g0 + k`. -/
theorem forceArgs_getD_last (bp : List ℕ) : ∀ (args : List ℕ) (g0 k j : ℕ),
    k < bp.length → bp.getD k 0 = j → j ∉ bp.drop (k + 1) → j < args.length →
    (forceArgs args bp g0).getD j 0 = g0 + k := by
  induction bp with
  | nil => intro args g0 k j hk _ _ _; simp at hk
  | cons p rest ih =>
    intro args g0 k j hk hbj hnot hj
    cases k with
    | zero =>
      rw [List.getD_cons_zero] at hbj
      subst hbj
      rw [forceArgs, forceArgs_getD_notmem rest _ (g0 + 1) p (by simpa using hnot),
        List.getD_eq_getElem _ _ (show p < (args.set p g0).length by simpa using hj)]
      simp [List.getElem_set_self (l := args) (i := p) (a := g0) _]
    | succ k =>
      rw [List.getD_cons_succ] at hbj
      rw [forceArgs]
      have := ih (args.set p g0) (g0 + 1) k j (by simpa using hk) hbj
        (by simpa using hnot) (by simpa using hj)
      rw [this]
      omega

theorem matchIous_length (boxes : List BoxG) (priors : List Prior) :
    (matchIous boxes priors).length = boxes.length := by
  simp [matchIous, compute_ious_val]

theorem matchIous_row_length (boxes : List BoxG) (priors : List Prior) (g : ℕ)
    (hg : g < (matchIous boxes priors).length) :
    (matchIous boxes priors)[g].length = priors.length := by
  have hg' : g < boxes.length := by rw [← matchIous_length boxes priors]; exact hg
  simp [matchIous, compute_ious_val]

theorem bestPriorArgPerBox_length (boxes : List BoxG) (priors : List Prior) :
    (bestPriorArgPerBox boxes priors).length = boxes.length := by
  rw [bestPriorArgPerBox, List.length_map, matchIous_length]

theorem bestBoxArgPerPrior_length (boxes : List BoxG) (priors : List Prior) :
    (bestBoxArgPerPrior boxes priors).length = priors.length := by
  rw [bestBoxArgPerPrior, List.length_map, List.length_range]

theorem bestIouPerPrior_length (boxes : List BoxG) (priors : List Prior) :
    (bestIouPerPrior boxes priors).length = priors.length := by
  rw [bestIouPerPrior, List.length_map, List.length_range]

theorem matchArgs_length (boxes : List BoxG) (priors : List Prior) :
    (matchArgs boxes priors).length = priors.length := by
  rw [matchArgs, forceArgs_length, bestBoxArgPerPrior_length]

theorem matchIousForced_length (boxes : List BoxG) (priors : List Prior) :
    (matchIousForced boxes priors).length = priors.length := by
  rw [matchIousForced, forceIous_length, bestIouPerPrior_length]

theorem matchesPre_length (boxes : List BoxG) (priors : List Prior) :
    (matchesPre boxes priors).length = priors.length := by
  rw [matchesPre, List.length_map, matchArgs_length]

theorem matchBoxes_length (boxes : List BoxG) (priors : List Prior) (t : ℚ) :
    (matchBoxes boxes priors t).length = priors.length := by
  rw [matchBoxes, List.length_zipWith, matchIousForced_length, matchesPre_length]
  exact min_self _

theorem bestPriorArgPerBox_getD_lt (boxes : List BoxG) (priors : List Prior) (g : ℕ)
    (hg : g < boxes.length) (hp : priors ≠ []) :
    (bestPriorArgPerBox boxes priors).getD g 0 < priors.length := by
  have hgl : g < (matchIous boxes priors).length := by
    rw [matchIous_length]; exact hg
  rw [bestPriorArgPerBox,
    List.getD_eq_getElem _ _ (show g < ((matchIous boxes priors).map reversed_argmax).length by
      simpa using hgl),
    List.getElem_map]
  have hrow := matchIous_row_length boxes priors g hgl
  rw [← hrow]
  exact reversed_argmax_lt _ (by rw [hrow]; exact List.length_pos.mpr hp)

/-- Expansion of one output row of `matchBoxes` into the background-suppression
conditional over the forced IoU and the gathered match row. -/
theorem matchBoxes_getD (boxes : List BoxG) (priors : List Prior) (t : ℚ) (j : ℕ)
    (hj : j < priors.length) :
    (matchBoxes boxes priors t).getD j defaultBox
      = (if (matchIousForced boxes priors).getD j 0 < t
          then { (matchesPre boxes priors).getD j defaultBox with cls := 0 }
          else (matchesPre boxes priors).getD j defaultBox) := by
  have h1 : j < (matchIousForced boxes priors).length := by
    rw [matchIousForced_length]; exact hj
  have h2 : j < (matchesPre boxes priors).length := by
    rw [matchesPre_length]; exact hj
  have h0 : j < (matchBoxes boxes priors t).length := by
    rw [matchBoxes_length]; exact hj
  rw [List.getD_eq_getElem _ _ h0, List.getD_eq_getElem _ _ h1, List.getD_eq_getElem _ _ h2]
  exact List.getElem_zipWith (h := by simpa [matchBoxes] using h0)

/-- The gathered (pre-suppression) match row `j` is the ground-truth row
selected by the forced argument array. -/
theorem matchesPre_getD (boxes : List BoxG) (priors : List Prior) (j : ℕ)
    (hj : j < priors.length) :
    (matchesPre boxes priors).getD j defaultBox
      = boxes.getD ((matchArgs boxes priors).getD j 0) defaultBox := by
  have h2 : j < (matchArgs boxes priors).length := by
    rw [matchArgs_length]; exact hj
  have h1 : j < (matchesPre boxes priors).length := by
    rw [matchesPre_length]; exact hj
  rw [List.getD_eq_getElem _ _ h1, List.getD_eq_getElem _ _ h2]
  simp only [matchesPre]
  rw [List.getElem_map]

/-- Claim C4, amended: for a non-empty ground-truth set, a non-empty anchor
set and a threshold in the documented range, every ground-truth box `g`
whose mutually-best anchor (computed by `reversed_argmax` over its IoU row)
is not also the mutually-best anchor of a *later* ground-truth box appears
in the output at that anchor with its own coordinates and class — the
sentinel IoU `2` keeps background suppression away regardless of the true
overlap.  (The original claim, quantified over *every* ground-truth box,
fails when two boxes share a best anchor: see the counterexample.) -/
theorem match_forced_gt (boxes : List BoxG) (priors : List Prior) (t : ℚ) (g : ℕ)
    (hp : priors ≠ []) (ht : t ≤ 1) (hg : g < boxes.length)
    (hnot : (bestPriorArgPerBox boxes priors).getD g 0 ∉
      (bestPriorArgPerBox boxes priors).drop (g + 1)) :
    (matchBoxes boxes priors t).getD ((bestPriorArgPerBox boxes priors).getD g 0) defaultBox
      = boxes.getD g defaultBox := by
  have hbl : (bestPriorArgPerBox boxes priors).length = boxes.length :=
    bestPriorArgPerBox_length boxes priors
  have hjp : (bestPriorArgPerBox boxes priors).getD g 0 < priors.length :=
    bestPriorArgPerBox_getD_lt boxes priors g hg hp
  have hmem : (bestPriorArgPerBox boxes priors).getD g 0 ∈ bestPriorArgPerBox boxes priors := by
    rw [List.getD_eq_getElem _ _ (show g < (bestPriorArgPerBox boxes priors).length by omega)]
    exact List.getElem_mem _
  have hiou : (matchIousForced boxes priors).getD ((bestPriorArgPerBox boxes priors).getD g 0) 0 = 2 := by
    rw [matchIousForced]
    exact forceIous_getD_mem _ _ _ hmem (by rw [bestIouPerPrior_length]; exact hjp)
  have harg : (matchArgs boxes priors).getD ((bestPriorArgPerBox boxes priors).getD g 0) 0 = g := by
    rw [matchArgs]
    have h := forceArgs_getD_last (bestPriorArgPerBox boxes priors)
      (bestBoxArgPerPrior boxes priors) 0 g _ (by omega) rfl hnot
      (by rw [bestBoxArgPerPrior_length]; exact hjp)
    simpa using h
  rw [matchBoxes_getD boxes priors t _ hjp, hiou,
    if_neg (not_lt.mpr (le_trans ht (by norm_num))),
    matchesPre_getD boxes priors _ hjp, harg]

/-- Counterexample to claim C4 as stated: two ground-truth boxes that share
the same mutually-best anchor.  The forced-match loop iterates ground-truth
boxes in order, so the later box overwrites the earlier one's forced anchor
and the first box `(0,0,1,1, class 7)` appears nowhere in the output. -/
theorem match_forced_gt_counterexample :
    (⟨0, 0, 1, 1, 7⟩ : BoxG) ∉
      matchBoxes [⟨0, 0, 1, 1, 7⟩, ⟨0, 0, 2, 2, 9⟩] [⟨1/2, 1/2, 1, 1⟩] (1/2) := by
  norm_num [matchBoxes, matchIousForced, matchesPre, matchArgs, bestIouPerPrior,
    bestBoxArgPerPrior, bestPriorArgPerBox, matchIous, compute_ious_val, iou_val,
    inter_area, union_area, box_area, to_point_form, BoxG.coords, iouCol,
    reversed_argmax, argmax, listMax, forceIous, forceArgs, defaultBox,
    List.range_succ]

/-- Witness for the amended C4 at a single box and single anchor. -/
theorem match_forced_gt_witness :
    (([⟨1, 1, 2, 2⟩] : List Prior) ≠ []) ∧ ((1 : ℚ)/2 ≤ 1) ∧
    (0 < ([⟨0, 0, 2, 2, 3⟩] : List BoxG).length) ∧
    ((bestPriorArgPerBox [⟨0, 0, 2, 2, 3⟩] [⟨1, 1, 2, 2⟩]).getD 0 0 ∉
      (bestPriorArgPerBox [⟨0, 0, 2, 2, 3⟩] [⟨1, 1, 2, 2⟩]).drop (0 + 1)) ∧
    (matchBoxes [⟨0, 0, 2, 2, 3⟩] [⟨1, 1, 2, 2⟩] (1/2)).getD
        ((bestPriorArgPerBox [⟨0, 0, 2, 2, 3⟩] [⟨1, 1, 2, 2⟩]).getD 0 0) defaultBox
      = ([⟨0, 0, 2, 2, 3⟩] : List BoxG).getD 0 defaultBox :=
  ⟨by simp, by norm_num, by simp,
    by simp [bestPriorArgPerBox, matchIous, compute_ious_val],
    match_forced_gt _ _ _ 0 (by simp) (by norm_num) (by simp)
      (by simp [bestPriorArgPerBox, matchIous, compute_ious_val])⟩

/-- Claim C5: with an empty ground-truth array every output row of
`match` carries background class `0`, whatever the anchors and threshold,
and the output stays positionally aligned with the anchor list. -/
theorem match_empty_gt (priors : List Prior) (t : ℚ) (j : ℕ) (hj : j < priors.length) :
    ((matchBoxes [] priors t).getD j defaultBox).cls = 0 ∧
    (matchBoxes [] priors t).length = priors.length := by
  refine ⟨?_, matchBoxes_length _ _ _⟩
  have hpre : (matchesPre [] priors).getD j defaultBox = defaultBox := by
    rw [matchesPre_getD [] priors j hj]
    simp [defaultBox]
  rw [matchBoxes_getD [] priors t j hj, hpre]
  split
  · rfl
  · rfl

/-- Witness for C5 at a concrete single-anchor input. -/
theorem match_empty_gt_witness :
    (0 < ([⟨0, 0, 2, 2⟩] : List Prior).length) ∧
    ((matchBoxes [] [⟨0, 0, 2, 2⟩] (1/2)).getD 0 defaultBox).cls = 0 :=
  ⟨by simp, (match_empty_gt [⟨0, 0, 2, 2⟩] (1/2) 0 (by simp)).1⟩

/-- Claim C10: the background-suppression step touches only the class
column.  Every output row keeps the four coordinates of the gathered row of
its best-matching ground-truth box; a row at or above the threshold is
entirely unchanged; a row below the threshold differs only in its class
column, which becomes `0`. -/
theorem match_background_only_class (boxes : List BoxG) (priors : List Prior) (t : ℚ)
    (j : ℕ) (hj : j < priors.length) :
    ((matchBoxes boxes priors t).getD j defaultBox).x0
        = ((matchesPre boxes priors).getD j defaultBox).x0 ∧
    ((matchBoxes boxes priors t).getD j defaultBox).y0
        = ((matchesPre boxes priors).getD j defaultBox).y0 ∧
    ((matchBoxes boxes priors t).getD j defaultBox).x1
        = ((matchesPre boxes priors).getD j defaultBox).x1 ∧
    ((matchBoxes boxes priors t).getD j defaultBox).y1
        = ((matchesPre boxes priors).getD j defaultBox).y1 ∧
    (matchesPre boxes priors).getD j defaultBox
        = boxes.getD ((matchArgs boxes priors).getD j 0) defaultBox ∧
    (¬ (matchIousForced boxes priors).getD j 0 < t →
      (matchBoxes boxes priors t).getD j defaultBox
        = (matchesPre boxes priors).getD j defaultBox) ∧
    ((matchIousForced boxes priors).getD j 0 < t →
      (matchBoxes boxes priors t).getD j defaultBox
        = { (matchesPre boxes priors).getD j defaultBox with cls := 0 }) := by
  have hmb := matchBoxes_getD boxes priors t j hj
  refine ⟨?_, ?_, ?_, ?_, matchesPre_getD boxes priors j hj, ?_, ?_⟩
  · rw [hmb]; split <;> rfl
  · rw [hmb]; split <;> rfl
  · rw [hmb]; split <;> rfl
  · rw [hmb]; split <;> rfl
  · intro h; rw [hmb, if_neg h]
  · intro h; rw [hmb, if_pos h]

/-- Witness for C10 at a concrete below-threshold anchor. -/
theorem match_background_only_class_witness :
    (0 < ([⟨100, 100, 2, 2⟩] : List Prior).length) ∧
    ((matchBoxes [⟨0, 0, 1, 1, 7⟩] [⟨100, 100, 2, 2⟩] (1/2)).getD 0 defaultBox).x0
      = ((matchesPre [⟨0, 0, 1, 1, 7⟩] [⟨100, 100, 2, 2⟩]).getD 0 defaultBox).x0 :=
  ⟨by simp,
    (match_background_only_class [⟨0, 0, 1, 1, 7⟩] [⟨100, 100, 2, 2⟩] (1/2) 0 (by simp)).1⟩

/-! ## Detection evaluator (`paz/evaluation/detection.py`)

`compute_matches` runs the external detector over the dataset.  Modelled
from the spec: `load_image` and the detector are opaque external
collaborators (spec 1), so a dataset sample carries the detector's output
(boxes, class arguments, scores) for its image directly, alongside its
ground truth, exactly the data the evaluator reads. -/

/-- One dataset sample: ground-truth rows (`sample['boxes']`), the optional
difficulty flags (`sample['difficulties']`), and the detector's predictions
for the sample's image as returned by `get_predictions`. -/
structure Sample where
  boxes : List BoxG
  difficulties : Option (List Bool)
  predBoxes : List Box4
  predClasses : List ℤ
  predScores : List ℚ

/-- Accumulators of `compute_matches`, the dictionaries keyed by class
argument `1 .. num_classes` laid out as lists of length `num_classes + 1`
(index `0` unused, mirroring `range(1, num_classes + 1)`). -/
structure EvalAcc where
  positives : List ℕ
  scores : List (List ℚ)
  matched : List (List ℤ)
deriving DecidableEq, Repr

/-- Numpy boolean-mask selection `xs[mask]`.  A boolean index whose length
differs from the array's first axis raises `IndexError`; that failure is
`none`. -/
def boolMask {α : Type} (mask : List Bool) (xs : List α) : Option (List α) :=
  if mask.length = xs.length
  then some ((mask.zip xs).filterMap (fun p => if p.1 then some p.2 else none))
  else none

/-- Pair-sort by descending score, modelling
`sorted_args = class_scores.argsort()[::-1]` followed by indexing boxes and
scores with it.  `np.argsort`'s default sort is not stable, so the order
among equal scores is unspecified; insertion order is used here. -/
def insertDesc {α : Type} (p : ℚ × α) : List (ℚ × α) → List (ℚ × α)
  | [] => [p]
  | q :: t => if q.1 < p.1 then p :: q :: t else q :: insertDesc p t

/-- Full descending sort built from `insertDesc`. -/
def sortScoresDesc {α : Type} (l : List (ℚ × α)) : List (ℚ × α) :=
  l.foldr insertDesc []

/-- `predictions_mask_by_class(class_arg, class_args, boxes, scores)` from
`detection.py`: mask `class_arg == class_args` applied to `boxes` and
`scores`, then both sorted by descending score. -/
def predictions_mask_by_class (class_arg : ℤ) (class_args : List ℤ)
    (boxes : List Box4) (scores : List ℚ) : Option (List Box4 × List ℚ) :=
  let class_mask := class_args.map (fun c => decide (class_arg = c))
  match boolMask class_mask boxes, boolMask class_mask scores with
  | some class_boxes, some class_scores =>
    let sorted := sortScoresDesc (class_scores.zip class_boxes)
    some (sorted.map (fun q => q.2), sorted.map (fun q => q.1))
  | _, _ => none

/-- `ground_truth_mask_by_class(class_arg, class_args, boxes, difficulties)`
from `detection.py`: the same mask applied to the ground-truth boxes and to
the difficulty flags, no sorting. -/
def ground_truth_mask_by_class (class_arg : ℤ) (class_args : List ℤ)
    (boxes : List Box4) (difficulties : List Bool) : Option (List Box4 × List Bool) :=
  let class_mask := class_args.map (fun c => decide (class_arg = c))
  match boolMask class_mask boxes, boolMask class_mask difficulties with
  | some class_boxes, some class_difficulties => some (class_boxes, class_difficulties)
  | _, _ => none

/-- `get_match_value(selected, ground_truth_arg, class_difficulties)` from
`detection.py`, returning `(is_selected, match_value)`: sentinel `-1`
argument gives `(False, 0)`; a real argument gives `is_selected = True` and
`-1` for a difficult box, `0` for an already-selected box, `1` otherwise. -/
def get_match_value (selected : List Bool) (ground_truth_arg : ℤ)
    (class_difficulties : List Bool) : Bool × ℤ :=
  if 0 ≤ ground_truth_arg then
    (true,
      if class_difficulties.getD ground_truth_arg.toNat false then -1
      else if selected.getD ground_truth_arg.toNat false then 0
      else 1)
  else (false, 0)

/-- Python/numpy assignment `selected[i] = v` with a possibly negative
index: a negative `i` addresses position `len + i` from the end, so the
sentinel `-1` writes to the *last* slot.  (An index below `-len` would raise;
the evaluator only ever produces indices `≥ -1`.) -/
def setPy (l : List Bool) (i : ℤ) (v : Bool) : List Bool :=
  if 0 ≤ i then l.set i.toNat v else l.set (l.length - (-i).toNat) v

/-- The per-prediction loop of `compute_matches` (lines 180-184): for each
best ground-truth argument, compute the match value, write `is_selected`
back at `selected[ground_truth_arg]` (note the negative-index write for the
sentinel `-1`), and append the match value.  Returns the final `selected`
array and the appended match values. -/
def matchLoop (selected : List Bool) (diffs : List Bool) : List ℤ → List Bool × List ℤ
  | [] => (selected, [])
  | a :: rest =>
    let r := get_match_value selected a diffs
    let res := matchLoop (setPy selected a r.1) diffs rest
    (res.1, r.2 :: res.2)

/-- The per-class matching block of `compute_matches` (lines 165-184), for
one class of one sample: widen both box sets by `+1` on the max corner,
compute the prediction × ground-truth IoU matrix, take per-row first-occurrence
argmax, mask rows whose best IoU is below the threshold to `-1`, then run
the per-prediction loop with an all-false `selected` array. -/
def class_match_values (preds gts : List Box4) (diffs : List Bool) (t : ℚ) : List ℤ :=
  let predsW := preds.map (fun b => { b with x1 := b.x1 + 1, y1 := b.y1 + 1 })
  let gtsW := gts.map (fun b => { b with x1 := b.x1 + 1, y1 := b.y1 + 1 })
  let ious := compute_ious_val predsW gtsW
  let gtArgs : List ℤ :=
    ious.map (fun row => if listMax row < t then -1 else (argmax row : ℤ))
  (matchLoop (List.replicate gts.length false) diffs gtArgs).2

/-- `np.unique` over the concatenated class arguments: sorted distinct
values. -/
def insertSortedUnique (x : ℤ) : List ℤ → List ℤ
  | [] => [x]
  | y :: t => if x < y then x :: y :: t else if x = y then y :: t else y :: insertSortedUnique x t

/-- Sorted deduplication, `np.unique`. -/
def sortedUnique (l : List ℤ) : List ℤ := l.foldr insertSortedUnique []

/-- `dict[key] += v` on the positives accumulator (`List.set` is a no-op
out of range; the sources only index keys `1 .. num_classes`). -/
def updAdd (l : List ℕ) (i : ℕ) (v : ℕ) : List ℕ := l.set i (l.getD i 0 + v)

/-- `dict[key].extend(xs)` on a list-valued accumulator. -/
def updApp {α : Type} (l : List (List α)) (i : ℕ) (xs : List α) : List (List α) :=
  l.set i (l.getD i [] ++ xs)

/-- The body of the per-class loop of `compute_matches` (lines 142-184).
Faithful to the source, including the caller's bug at lines 144-146: the
*unique class list* `class_args` is passed to `predictions_mask_by_class`
where per-box predicted class labels are expected, so the prediction mask is
taken over the unique class values, while the ground-truth mask (line 147)
correctly uses the per-box labels. -/
def processClass (t : ℚ) (s : Sample) (class_args gtClasses : List ℤ)
    (diffs : List Bool) (acc : EvalAcc) (c : ℤ) : Option EvalAcc :=
  match predictions_mask_by_class c class_args s.predBoxes s.predScores with
  | none => none
  | some (class_predicted_boxes, class_predicted_scores) =>
    match ground_truth_mask_by_class c gtClasses (s.boxes.map BoxG.coords) diffs with
    | none => none
    | some (class_ground_truth_boxes, class_difficulties) =>
      let num_easy := (class_difficulties.filter (fun d => !d)).length
      let cn := c.toNat
      let acc1 : EvalAcc :=
        { acc with
          positives := updAdd acc.positives cn num_easy
          scores := updApp acc.scores cn class_predicted_scores }
      if class_predicted_boxes.length = 0 then some acc1
      else if class_ground_truth_boxes.length = 0 then
        some { acc1 with
          matched := updApp acc1.matched cn (List.replicate class_predicted_boxes.length 0) }
      else
        some { acc1 with
          matched := updApp acc1.matched cn
            (class_match_values class_predicted_boxes class_ground_truth_boxes
              class_difficulties t) }

/-- `compute_matches(dataset, detector, class_to_arg, iou_thresh)` from
`detection.py`.  `num_classes = len(class_to_arg)`; ground-truth class
labels are `astype(int)` of the fifth column (labels are non-negative
integers in the data model, so the floor is the truncation numpy applies);
difficulties default to all-easy when absent; the per-sample class list is
the sorted unique union of predicted and ground-truth classes. -/
def compute_matches (dataset : List Sample) (num_classes : ℕ) (t : ℚ) : Option EvalAcc :=
  let init : EvalAcc :=
    ⟨List.replicate (num_classes + 1) 0,
      List.replicate (num_classes + 1) [],
      List.replicate (num_classes + 1) []⟩
  dataset.foldl
    (fun accO s =>
      match accO with
      | none => none
      | some acc =>
        let gtClasses : List ℤ := s.boxes.map (fun b => ⌊b.cls⌋)
        let diffs := s.difficulties.getD (List.replicate s.boxes.length false)
        let class_args := sortedUnique (s.predClasses ++ gtClasses)
        class_args.foldl
          (fun aO c =>
            match aO with
            | none => none
            | some a => processClass t s class_args gtClasses diffs a c)
          (some acc))
    (some init)

/-- Projection used to state concrete evaluations of `compute_matches`:
the score list accumulated for class `c` (empty when the run failed). -/
def scoresOf (r : Option EvalAcc) (c : ℕ) : List ℚ :=
  match r with
  | some a => a.scores.getD c []
  | none => []

/-! ### Claims C2, C3 and C6 about the evaluator's matching -/

set_option maxHeartbeats 4000000 in
/-- Claim C2: per-class prediction selection in `compute_matches`.  One
sample: ground truth one box of class 1; detector output two identical
boxes with classes `[2, 1]` and scores `[0.9, 0.8]`.  The unique class list
is `[1, 2]`, and because `compute_matches` passes that unique list (not the
per-box predicted labels) to `predictions_mask_by_class`, the mask for
class 1 is `[true, false]` over *positions* and selects the class-2
prediction: the scores accumulated for class 1 are `[0.9]`, although the
only prediction whose predicted class label is 1 has score `0.8`. -/
theorem compute_matches_mask_bug :
    scoresOf (compute_matches [⟨[⟨0, 0, 10, 10, 1⟩], none,
        [⟨0, 0, 10, 10⟩, ⟨0, 0, 10, 10⟩], [2, 1], [9/10, 8/10]⟩] 2 (1/2)) 1
      = [9/10] ∧ (9 : ℚ)/10 ≠ 8/10 := by
  constructor
  · norm_num [scoresOf, compute_matches, processClass, predictions_mask_by_class,
      ground_truth_mask_by_class, boolMask, sortScoresDesc, insertDesc, get_match_value,
      setPy, matchLoop, class_match_values, compute_ious_val, iou_val, inter_area,
      union_area, box_area, BoxG.coords, sortedUnique, insertSortedUnique, updAdd,
      updApp, listMax, argmax, List.replicate, Int.floor_one, List.filterMap_cons,
      List.filterMap_nil, List.set_cons_zero, List.set_cons_succ, List.getElem?_cons_zero,
      List.getElem?_cons_succ, List.getElem?_nil, Int.toNat_ofNat, List.zip_cons_cons,
      List.zip_nil_right, List.zip_nil_left, List.getD, show (2:ℤ).toNat = 2 from rfl]
  · norm_num


/-- Claim C3: a single non-difficult ground-truth box and three predictions
in descending score order — a perfect match, a far-away miss, and a second
perfect match.  The miss produces sentinel `-1`, and the write
`selected[-1] = False` (numpy negative indexing) un-claims the ground-truth
box, so the third prediction is recorded as a *second* true positive:
the match values are `[1, 0, 1]`, not the `[1, 0, 0]` the at-most-one-claim
invariant demands. -/
theorem class_match_values_double_claim :
    class_match_values [⟨0, 0, 10, 10⟩, ⟨100, 100, 101, 101⟩, ⟨0, 0, 10, 10⟩]
      [⟨0, 0, 10, 10⟩] [false] (1/2) = [1, 0, 1] := by
  norm_num [class_match_values, compute_ious_val, iou_val, inter_area, union_area,
    box_area, listMax, argmax, matchLoop, get_match_value, setPy, List.replicate]

/-- Counterexample to claim C6 as stated: one difficult ground-truth box,
one prediction whose best match it is.  The loop appends `-1`, but — against
the claim's "do not mark it claimed" — `get_match_value` returns
`is_selected = True` even on the difficult branch, and the write-back marks
the box claimed: the selected array ends as `[true]`. -/
theorem matchLoop_difficult_marks_selected :
    (matchLoop [false] [true] [(0 : ℤ)]).1 = [true] ∧
    (matchLoop [false] [true] [(0 : ℤ)]).2 = [-1] := by
  norm_num [matchLoop, get_match_value, setPy]

/-- Claim C6, amended: when a prediction's best ground-truth box is
difficult the loop appends `-1` *and marks the box claimed* — yet every
later prediction whose best match is that same difficult box still yields
`-1`, never `0`, because `get_match_value` tests difficulty before the
claimed flag.  Stated for every position of the argument list whose entry
is that difficult box, whatever the initial selected state. -/
theorem matchLoop_difficult_ignored (diffs : List Bool) :
    ∀ (args : List ℤ) (selected : List Bool) (i g : ℕ),
      i < args.length → args.getD i 0 = (g : ℤ) → diffs.getD g false = true →
      (matchLoop selected diffs args).2.getD i 0 = -1 := by
  intro args
  induction args with
  | nil =>
    intro selected i g hi _ _
    simp at hi
  | cons a rest ih =>
    intro selected i g hi ha hd
    cases i with
    | zero =>
      rw [List.getD_cons_zero] at ha
      subst ha
      rw [matchLoop]
      simp only [List.getD_cons_zero]
      simp only [List.getD, List.get?_eq_getElem?] at hd
      simp [get_match_value, hd]
    | succ i =>
      rw [List.getD_cons_succ] at ha
      rw [matchLoop]
      simp only [List.getD_cons_succ]
      exact ih _ i g (by simpa using hi) ha hd

/-- Witness for the amended C6: two predictions both matching the single
difficult ground-truth box; the second one (position 1) still yields `-1`. -/
theorem matchLoop_difficult_ignored_witness :
    (1 < ([0, 0] : List ℤ).length ∧ ([0, 0] : List ℤ).getD 1 0 = ((0 : ℕ) : ℤ) ∧
      ([true] : List Bool).getD 0 false = true) ∧
    (matchLoop [false] [true] [0, 0]).2.getD 1 0 = -1 :=
  ⟨⟨by simp, by simp, by simp⟩,
    matchLoop_difficult_ignored [true] [0, 0] [false] 1 0 (by simp) (by simp) (by simp)⟩

/-! ## Relevance metrics, average precision and mAP (`detection.py`) -/

/-- `np.nan_to_num` on one entry: NaN (`none`) becomes `0`. -/
def nan_to_num (o : Option ℚ) : ℚ := o.getD 0

/-- Running counts `np.cumsum(ms == k)` (the predicate picks the value
compared against); `acc` is the count so far. -/
def cumsumCount (p : ℤ → Bool) : List ℤ → ℕ → List ℕ
  | [], _ => []
  | x :: r, acc =>
    let acc' := acc + (if p x then 1 else 0)
    acc' :: cumsumCount p r acc'

/-- Per-class body of `calculate_relevance_metrics`: re-sort the match
values by descending score, cumulative-sum the `== 1` and `== 0` masks,
`precision = tp / (fp + tp)` elementwise (`fdiv`: a `0/0` entry is NaN),
`recall = tp / num_positives` only when `num_positives > 0`, else
undefined (`none`). -/
def class_precision_recall (pos : ℕ) (scores : List ℚ) (ms : List ℤ) :
    List (Option ℚ) × Option (List ℚ) :=
  let sorted := (sortScoresDesc (scores.zip ms)).map (fun q => q.2)
  let true_positives := cumsumCount (fun m => decide (m = 1)) sorted 0
  let false_positives := cumsumCount (fun m => decide (m = 0)) sorted 0
  let precision := List.zipWith
    (fun tp fp => fdiv (tp : ℚ) ((fp : ℚ) + (tp : ℚ))) true_positives false_positives
  let recalls := if 0 < pos
    then some (true_positives.map (fun tp => (tp : ℚ) / (pos : ℚ)))
    else none
  (precision, recalls)

/-- `calculate_relevance_metrics(num_positives, scores, matches)`:
per-class precision and recall arrays of length `max(keys) + 1`
(`= acc.positives.length`); index `0` is never a key and stays `None`. -/
def calculate_relevance_metrics (acc : EvalAcc) :
    List (Option (List (Option ℚ))) × List (Option (List ℚ)) :=
  ((List.range acc.positives.length).map (fun c =>
      if c = 0 then none
      else some (class_precision_recall (acc.positives.getD c 0)
          (acc.scores.getD c []) (acc.matched.getD c [])).1),
    (List.range acc.positives.length).map (fun c =>
      if c = 0 then none
      else (class_precision_recall (acc.positives.getD c 0)
          (acc.scores.getD c []) (acc.matched.getD c [])).2))

/-- One 11-point interpolation step: `0` when no recall reaches `t`, else
the maximum of `nan_to_num(precision)` over the positions with recall
`≥ t`. -/
def interp_at (ps : List (Option ℚ)) (rs : List ℚ) (t : ℚ) : ℚ :=
  let sel := (rs.zip (ps.map nan_to_num)).filterMap
    (fun pr => if t ≤ pr.1 then some pr.2 else none)
  if sel = [] then 0 else listMax sel

/-- `calculate_average_precisions_eleven_point_interpolation`: a class with
`None` precision or recall gets NaN (`none`); otherwise the mean of the
interpolated precision at recall thresholds `0, 0.1, …, 1.0`, accumulated
as `p / 11` per step as in the source. -/
def calculate_average_precisions_eleven_point_interpolation
    (precision : List (Option (List (Option ℚ)))) (recalls : List (Option (List ℚ))) :
    List (Option ℚ) :=
  (List.range precision.length).map (fun c =>
    match precision.getD c none, recalls.getD c none with
    | some ps, some rs =>
      some ((List.range 11).foldl (fun a k => a + interp_at ps rs ((k : ℚ) / 10) / 11) 0)
    | _, _ => none)

/-- Suffix running maximum, `np.maximum.accumulate(xs[::-1])[::-1]`. -/
def suffixMax : List ℚ → List ℚ
  | [] => []
  | x :: rest =>
    let r := suffixMax rest
    (match r with
      | [] => x
      | m :: _ => max x m) :: r

/-- `calculate_average_precisions_every_point_interpolation`: sentinels
`(recall 0, precision 0)` and `(recall 1, precision 0)` appended, the
monotone envelope taken from the high-recall end, and the area summed at
recall-change points. -/
def calculate_average_precisions_every_point_interpolation
    (precision : List (Option (List (Option ℚ)))) (recalls : List (Option (List ℚ))) :
    List (Option ℚ) :=
  (List.range precision.length).map (fun c =>
    match precision.getD c none, recalls.getD c none with
    | some ps, some rs =>
      let mpre := 0 :: ps.map nan_to_num ++ [0]
      let mrec := 0 :: rs ++ [1]
      let env := suffixMax mpre
      some ((((List.range (mrec.length - 1)).filter
          (fun i => decide (mrec.getD (i + 1) 0 ≠ mrec.getD i 0))).map
          (fun i => (mrec.getD (i + 1) 0 - mrec.getD i 0) * env.getD (i + 1) 0)).sum)
    | _, _ => none)

/-- `np.nanmean`: the mean over the defined (non-NaN) entries; NaN when
every entry is NaN. -/
def nanmean (l : List (Option ℚ)) : Option ℚ :=
  let defined := l.filterMap id
  if defined.length = 0 then none else some (defined.sum / (defined.length : ℚ))

/-- The metric part of `evaluateMAP`: per-class average precisions under
the selected interpolation policy, and `map = np.nanmean(ap)`. -/
def evaluateMAPCore (acc : EvalAcc) (use_07_metric : Bool) :
    List (Option ℚ) × Option ℚ :=
  let pr := calculate_relevance_metrics acc
  let aps := if use_07_metric
    then calculate_average_precisions_eleven_point_interpolation pr.1 pr.2
    else calculate_average_precisions_every_point_interpolation pr.1 pr.2
  (aps, nanmean aps)

/-- `evaluateMAP(detector, dataset, class_to_arg, iou_thresh, use_07_metric)`
as the composition of `compute_matches` and the metric stage. -/
def evaluateMAP (dataset : List Sample) (num_classes : ℕ) (t : ℚ)
    (use_07_metric : Bool) : Option (List (Option ℚ) × Option ℚ) :=
  (compute_matches dataset num_classes t).map (fun acc => evaluateMAPCore acc use_07_metric)

/-! ### Claim C9 -/

theorem getD_range_map {α : Type} (n : ℕ) (f : ℕ → α) (c : ℕ) (d : α) (hc : c < n) :
    ((List.range n).map f).getD c d = f c := by
  rw [List.getD_eq_getElem _ _ (by simpa using hc), List.getElem_map, List.getElem_range]

theorem filterMap_id_eraseIdx (l : List (Option ℚ)) : ∀ (c : ℕ), c < l.length →
    l.getD c none = none → (l.eraseIdx c).filterMap id = l.filterMap id := by
  induction l with
  | nil =>
    intro c hc _
    simp at hc
  | cons x t ih =>
    intro c hc h0
    cases c with
    | zero =>
      rw [List.getD_cons_zero] at h0
      subst h0
      simp
    | succ c =>
      rw [List.getD_cons_succ] at h0
      have hrec := ih c (by simpa using hc) h0
      cases x with
      | none => simpa using hrec
      | some v => simpa using hrec

/-- A NaN entry contributes nothing to `np.nanmean`: erasing it leaves the
mean unchanged (it is excluded, not coerced to `0`). -/
theorem nanmean_eraseIdx (l : List (Option ℚ)) (c : ℕ) (hc : c < l.length)
    (h0 : l.getD c none = none) : nanmean l = nanmean (l.eraseIdx c) := by
  unfold nanmean
  rw [filterMap_id_eraseIdx l c hc h0]

theorem metrics_fst_length (acc : EvalAcc) :
    (calculate_relevance_metrics acc).1.length = acc.positives.length := by
  simp [calculate_relevance_metrics]

theorem metrics_snd_length (acc : EvalAcc) :
    (calculate_relevance_metrics acc).2.length = acc.positives.length := by
  simp [calculate_relevance_metrics]

theorem ap_eleven_length (p : List (Option (List (Option ℚ)))) (r : List (Option (List ℚ))) :
    (calculate_average_precisions_eleven_point_interpolation p r).length = p.length := by
  simp [calculate_average_precisions_eleven_point_interpolation]

theorem ap_every_length (p : List (Option (List (Option ℚ)))) (r : List (Option (List ℚ))) :
    (calculate_average_precisions_every_point_interpolation p r).length = p.length := by
  simp [calculate_average_precisions_every_point_interpolation]

theorem evaluateMAPCore_fst_length (acc : EvalAcc) (b : Bool) :
    (evaluateMAPCore acc b).1.length = acc.positives.length := by
  cases b
  · simp [evaluateMAPCore, ap_every_length, metrics_fst_length]
  · simp [evaluateMAPCore, ap_eleven_length, metrics_fst_length]

theorem metrics_fst_getD (acc : EvalAcc) (c : ℕ) (hc1 : 1 ≤ c)
    (hc2 : c < acc.positives.length) :
    (calculate_relevance_metrics acc).1.getD c none
      = some (class_precision_recall (acc.positives.getD c 0)
          (acc.scores.getD c []) (acc.matched.getD c [])).1 := by
  unfold calculate_relevance_metrics
  rw [getD_range_map _ _ c none hc2, if_neg (by omega)]

theorem metrics_snd_getD_zero_pos (acc : EvalAcc) (c : ℕ) (hc1 : 1 ≤ c)
    (hc2 : c < acc.positives.length) (h0 : acc.positives.getD c 0 = 0) :
    (calculate_relevance_metrics acc).2.getD c none = none := by
  unfold calculate_relevance_metrics
  rw [getD_range_map _ _ c none hc2, if_neg (by omega)]
  simp only [List.getD, List.get?_eq_getElem?] at h0
  simp [class_precision_recall, h0]

theorem ap_getD_none (acc : EvalAcc) (b : Bool) (c : ℕ) (hc1 : 1 ≤ c)
    (hc2 : c < acc.positives.length) (h0 : acc.positives.getD c 0 = 0) :
    (evaluateMAPCore acc b).1.getD c none = none := by
  have hp := metrics_fst_getD acc c hc1 hc2
  have hr := metrics_snd_getD_zero_pos acc c hc1 hc2 h0
  have hlen : c < (calculate_relevance_metrics acc).1.length := by
    rw [metrics_fst_length]; exact hc2
  cases b
  · show (calculate_average_precisions_every_point_interpolation
      (calculate_relevance_metrics acc).1 (calculate_relevance_metrics acc).2).getD c none = none
    unfold calculate_average_precisions_every_point_interpolation
    rw [getD_range_map _ _ c none hlen, hp, hr]
  · show (calculate_average_precisions_eleven_point_interpolation
      (calculate_relevance_metrics acc).1 (calculate_relevance_metrics acc).2).getD c none = none
    unfold calculate_average_precisions_eleven_point_interpolation
    rw [getD_range_map _ _ c none hlen, hp, hr]

/-- Claim C9: a class `c` with zero non-difficult ground-truth positives
has undefined recall (`None`), gets NaN average precision under both the
11-point and the every-point policies, and `evaluateMAP`'s `map` is
`np.nanmean` of the AP array, from whose mean the NaN entry at `c` is
excluded (erasing it changes nothing) rather than coerced to `0`. -/
theorem zero_positives_nan (acc : EvalAcc) (c : ℕ) (hc1 : 1 ≤ c)
    (hc2 : c < acc.positives.length) (h0 : acc.positives.getD c 0 = 0) :
    (calculate_relevance_metrics acc).2.getD c none = none ∧
    (evaluateMAPCore acc true).1.getD c none = none ∧
    (evaluateMAPCore acc false).1.getD c none = none ∧
    (evaluateMAPCore acc true).2 = nanmean (evaluateMAPCore acc true).1 ∧
    (evaluateMAPCore acc false).2 = nanmean (evaluateMAPCore acc false).1 ∧
    nanmean (evaluateMAPCore acc true).1
      = nanmean ((evaluateMAPCore acc true).1.eraseIdx c) ∧
    nanmean (evaluateMAPCore acc false).1
      = nanmean ((evaluateMAPCore acc false).1.eraseIdx c) := by
  refine ⟨metrics_snd_getD_zero_pos acc c hc1 hc2 h0,
    ap_getD_none acc true c hc1 hc2 h0, ap_getD_none acc false c hc1 hc2 h0,
    rfl, rfl, ?_, ?_⟩
  · exact nanmean_eraseIdx _ c (by rw [evaluateMAPCore_fst_length]; exact hc2)
      (ap_getD_none acc true c hc1 hc2 h0)
  · exact nanmean_eraseIdx _ c (by rw [evaluateMAPCore_fst_length]; exact hc2)
      (ap_getD_none acc false c hc1 hc2 h0)

/-- Witness for C9: three accumulator slots (classes 1 and 2), class 1 with
zero positives, class 2 with one true positive. -/
theorem zero_positives_nan_witness :
    (1 ≤ 1 ∧ 1 < ([0, 0, 1] : List ℕ).length ∧ ([0, 0, 1] : List ℕ).getD 1 0 = 0) ∧
    (calculate_relevance_metrics ⟨[0, 0, 1], [[], [], [1/2]], [[], [], [1]]⟩).2.getD 1 none
      = none ∧
    (evaluateMAPCore ⟨[0, 0, 1], [[], [], [1/2]], [[], [], [1]]⟩ true).1.getD 1 none = none ∧
    (evaluateMAPCore ⟨[0, 0, 1], [[], [], [1/2]], [[], [], [1]]⟩ false).1.getD 1 none = none :=
  ⟨⟨le_refl 1, by simp, by simp⟩,
    (zero_positives_nan ⟨[0, 0, 1], [[], [], [1/2]], [[], [], [1]]⟩ 1
      (le_refl 1) (by simp) (by simp)).1,
    (zero_positives_nan ⟨[0, 0, 1], [[], [], [1/2]], [[], [], [1]]⟩ 1
      (le_refl 1) (by simp) (by simp)).2.1,
    (zero_positives_nan ⟨[0, 0, 1], [[], [], [1/2]], [[], [], [1]]⟩ 1
      (le_refl 1) (by simp) (by simp)).2.2.1⟩

/-! ## Box codec: `encode` / `decode` (`boxes.py`)

The codec uses `log` and `exp`, so it is embedded over the reals.  A row is
the five columns of the `(num_priors, 5)` arrays; `variances` is the
two-element list `[v0, v1]` of the source. -/

/-- A five-column row (matched box / encoded target): in `encode`'s input,
columns `0..3` are point-form coordinates and column `4` the class. -/
structure Row5 where
  c0 : ℝ
  c1 : ℝ
  c2 : ℝ
  c3 : ℝ
  c4 : ℝ

/-- A prior row in center form over the reals. -/
structure PriorR where
  cx : ℝ
  cy : ℝ
  w : ℝ
  h : ℝ

/-- `encode(matched, priors, variances)` from `boxes.py`: center offset
`(matched[:, :2] + matched[:, 2:4]) / 2 - priors[:, :2]` normalised by
`variances[0] * priors[:, 2:4]`; size ratio `(matched[:, 2:4] - matched[:, :2]) / priors[:, 2:4]`
through `log(abs(·) + 1e-4) / variances[1]`; class column passed through. -/
noncomputable def encode (matched : Row5) (prior : PriorR) (v0 v1 : ℝ) : Row5 :=
  { c0 := ((matched.c0 + matched.c2) / 2 - prior.cx) / (v0 * prior.w)
    c1 := ((matched.c1 + matched.c3) / 2 - prior.cy) / (v0 * prior.h)
    c2 := Real.log (|(matched.c2 - matched.c0) / prior.w| + 1/10000) / v1
    c3 := Real.log (|(matched.c3 - matched.c1) / prior.h| + 1/10000) / v1
    c4 := matched.c4 }

/-- `decode(predictions, priors, variances)` from `boxes.py`: center
`priors[:, :2] + predictions[:, :2] * variances[0] * priors[:, 2:4]`, size
`priors[:, 2:4] * exp(predictions[:, 2:4] * variances[1])`, then the
in-place point-form conversion: mins first (`center - size/2`), then maxes
from the *new* mins (`size + mins`); class column passed through. -/
noncomputable def decode (predictions : Row5) (prior : PriorR) (v0 v1 : ℝ) : Row5 :=
  let cx := prior.cx + predictions.c0 * v0 * prior.w
  let cy := prior.cy + predictions.c1 * v0 * prior.h
  let sw := prior.w * Real.exp (predictions.c2 * v1)
  let sh := prior.h * Real.exp (predictions.c3 * v1)
  let x0 := cx - sw / 2
  let y0 := cy - sh / 2
  { c0 := x0, c1 := y0, c2 := sw + x0, c3 := sh + y0, c4 := predictions.c4 }

/-- Exact value of the decoded x-coordinates after a round trip: the
additive `1e-4` inside the `log` argument survives as an extra width of
`prior.w / 10000`, split evenly across the two corners. -/
theorem decode_encode_x (m : Row5) (p : PriorR) (v0 v1 : ℝ)
    (hv0 : v0 ≠ 0) (hv1 : v1 ≠ 0) (hw : 0 < p.w) (hx : m.c0 < m.c2) :
    (decode (encode m p v0 v1) p v0 v1).c0 = m.c0 - p.w / 20000 ∧
    (decode (encode m p v0 v1) p v0 v1).c2 = m.c2 + p.w / 20000 := by
  have hq : 0 < (m.c2 - m.c0) / p.w := div_pos (by linarith) hw
  have harg : 0 < (m.c2 - m.c0) / p.w + 1/10000 := by linarith
  have hsw : p.w * Real.exp (Real.log (|(m.c2 - m.c0) / p.w| + 1/10000) / v1 * v1)
      = (m.c2 - m.c0) + p.w / 10000 := by
    rw [div_mul_cancel₀ _ hv1, abs_of_pos hq, Real.exp_log harg]
    field_simp
    ring
  have hcan : ((m.c0 + m.c2) / 2 - p.cx) / (v0 * p.w) * v0 * p.w
      = (m.c0 + m.c2) / 2 - p.cx := by
    field_simp
    ring
  constructor
  · simp only [decode, encode]
    rw [hsw, hcan]
    ring
  · simp only [decode, encode]
    rw [hsw, hcan]
    ring

/-- Exact value of the decoded y-coordinates after a round trip. -/
theorem decode_encode_y (m : Row5) (p : PriorR) (v0 v1 : ℝ)
    (hv0 : v0 ≠ 0) (hv1 : v1 ≠ 0) (hh : 0 < p.h) (hy : m.c1 < m.c3) :
    (decode (encode m p v0 v1) p v0 v1).c1 = m.c1 - p.h / 20000 ∧
    (decode (encode m p v0 v1) p v0 v1).c3 = m.c3 + p.h / 20000 := by
  have hq : 0 < (m.c3 - m.c1) / p.h := div_pos (by linarith) hh
  have harg : 0 < (m.c3 - m.c1) / p.h + 1/10000 := by linarith
  have hsh : p.h * Real.exp (Real.log (|(m.c3 - m.c1) / p.h| + 1/10000) / v1 * v1)
      = (m.c3 - m.c1) + p.h / 10000 := by
    rw [div_mul_cancel₀ _ hv1, abs_of_pos hq, Real.exp_log harg]
    field_simp
    ring
  have hcan : ((m.c1 + m.c3) / 2 - p.cy) / (v0 * p.h) * v0 * p.h
      = (m.c1 + m.c3) / 2 - p.cy := by
    field_simp
    ring
  constructor
  · simp only [decode, encode]
    rw [hsh, hcan]
    ring
  · simp only [decode, encode]
    rw [hsh, hcan]
    ring

/-- Claim C7, amended: the round trip `decode(encode(boxes), …)`
reconstructs each coordinate within `1e-3` for non-degenerate boxes,
*nonzero* variances and anchors of positive width and height **at most 20**
(the exact per-coordinate error is `anchor_side / 20000`, so it exceeds
`1e-3` for larger anchors: see the counterexample); the class column is
passed through unchanged. -/
theorem encode_decode_roundtrip (m : Row5) (p : PriorR) (v0 v1 : ℝ)
    (hv0 : v0 ≠ 0) (hv1 : v1 ≠ 0) (hw : 0 < p.w) (hh : 0 < p.h)
    (hw20 : p.w ≤ 20) (hh20 : p.h ≤ 20) (hx : m.c0 < m.c2) (hy : m.c1 < m.c3) :
    |(decode (encode m p v0 v1) p v0 v1).c0 - m.c0| ≤ 1/1000 ∧
    |(decode (encode m p v0 v1) p v0 v1).c1 - m.c1| ≤ 1/1000 ∧
    |(decode (encode m p v0 v1) p v0 v1).c2 - m.c2| ≤ 1/1000 ∧
    |(decode (encode m p v0 v1) p v0 v1).c3 - m.c3| ≤ 1/1000 ∧
    (decode (encode m p v0 v1) p v0 v1).c4 = m.c4 := by
  obtain ⟨h0, h2⟩ := decode_encode_x m p v0 v1 hv0 hv1 hw hx
  obtain ⟨h1, h3⟩ := decode_encode_y m p v0 v1 hv0 hv1 hh hy
  refine ⟨?_, ?_, ?_, ?_, rfl⟩
  · rw [h0, show m.c0 - p.w / 20000 - m.c0 = -(p.w / 20000) by ring, abs_neg,
      abs_of_nonneg (by positivity)]
    linarith
  · rw [h1, show m.c1 - p.h / 20000 - m.c1 = -(p.h / 20000) by ring, abs_neg,
      abs_of_nonneg (by positivity)]
    linarith
  · rw [h2, show m.c2 + p.w / 20000 - m.c2 = p.w / 20000 by ring,
      abs_of_nonneg (by positivity)]
    linarith
  · rw [h3, show m.c3 + p.h / 20000 - m.c3 = p.h / 20000 by ring,
      abs_of_nonneg (by positivity)]
    linarith

/-- Counterexample to claim C7 as stated (anchors quantified without a size
bound): a `100 × 100` anchor with the unit box and variances `(1, 1)`
reconstructs `x_min` as `-1/200`, an error of `5e-3 > 1e-3`. -/
theorem encode_decode_roundtrip_counterexample :
    1/1000 < |(decode (encode ⟨0, 0, 1, 1, 3⟩ ⟨1/2, 1/2, 100, 100⟩ 1 1)
        ⟨1/2, 1/2, 100, 100⟩ 1 1).c0 - (0 : ℝ)| := by
  have h := (decode_encode_x ⟨0, 0, 1, 1, 3⟩ ⟨1/2, 1/2, 100, 100⟩ 1 1
    (by norm_num) (by norm_num) (by norm_num) (by norm_num)).1
  rw [h]
  have habs : ({ c0 := 0, c1 := 0, c2 := 1, c3 := 1, c4 := 3 } : Row5).c0
      - ({ cx := 1/2, cy := 1/2, w := 100, h := 100 } : PriorR).w / 20000 - (0 : ℝ)
      = -(1/200) := by
    norm_num
  rw [habs, abs_neg, abs_of_nonneg (by norm_num)]
  norm_num

/-- Witness for the amended C7 at a unit anchor and unit box. -/
theorem encode_decode_roundtrip_witness :
    ((1 : ℝ) ≠ 0 ∧ (0 : ℝ) < 1 ∧ (1 : ℝ) ≤ 20 ∧ (0 : ℝ) < 1) ∧
    |(decode (encode ⟨0, 0, 1, 1, 5⟩ ⟨0, 0, 1, 1⟩ 1 1) ⟨0, 0, 1, 1⟩ 1 1).c0
      - (0 : ℝ)| ≤ 1/1000 :=
  ⟨⟨by norm_num, by norm_num, by norm_num, by norm_num⟩,
    by simpa using (encode_decode_roundtrip ⟨0, 0, 1, 1, 5⟩ ⟨0, 0, 1, 1⟩ 1 1
      (by norm_num) (by norm_num) (by norm_num) (by norm_num) (by norm_num)
      (by norm_num) (by norm_num) (by norm_num)).1⟩

end PazCore
